import Mathlib

/-!
Shallow embedding of the ledger aggregation and ordering engine of
`src/index.tsx` (a single-ledger bookkeeping application).

Encoding conventions:
* Calendar dates are `YYYY-MM-DD` strings in the source, compared both
  lexicographically (window filters, today split) and via
  `new Date(s).getTime()` (the display sort).  For valid dates both
  orders coincide, so a date is modelled as a `Nat`: the number of days
  since proleptic Gregorian 0000-01-01 (a Saturday).  `Nat` order is
  exactly the source's date order.
* `localeCompare(…, 'ko')` is a total order on strings; it is modelled
  by the standard linear order on `String` via `strCmp`.
* JavaScript numbers holding currency amounts are modelled as `Int`
  (the capture forms enforce positivity, but the engine itself accepts
  any number, which claims C3/C6 are about).
* The source sorts with `Array.prototype.sort` under a comparator that
  never returns 0 for distinct ids (proved below), so any correct sort
  yields the same sequence; the embedding uses `List.insertionSort`.
-/

/-- One roster member (`interface Member` in the source). -/
structure Member where
  id : Nat
  name : String
  position : String
deriving DecidableEq, Repr

/-- Income or expense tag (`type: 'income' | 'expense'`). -/
inductive TxType where
  | income
  | expense
deriving DecidableEq, Repr

/-- One ledger entry (`interface Transaction` in the source); `date` is a
day number as explained in the module header. -/
structure Transaction where
  id : Nat
  type : TxType
  date : Nat
  category : String
  amount : Int
  memberId : Option Nat
  memo : Option String
deriving DecidableEq, Repr

/-- A transaction with its attached running balance
(`Transaction & {balance: number}`). -/
structure BTx where
  tx : Transaction
  balance : Int
deriving DecidableEq, Repr

/-- Signed contribution of an entry to the balance:
`tx.type === 'income' ? tx.amount : -tx.amount`. -/
def signedAmount (t : Transaction) : Int :=
  if t.type = TxType.income then t.amount else -t.amount

/-- Display order of income categories, reversed for the internal sort:
the source's `categoryOrder` array. -/
def categoryOrder : List String :=
  ["기타", "일천번제", "심방감사", "생일감사", "절기헌금",
   "주정헌금", "감사헌금", "건축헌금", "선교헌금", "십일조"]

/-- Effective sort index of a category: `indexOf`, with absent
categories mapped to the array length (the source's
`indexA === -1 ? categoryOrder.length : indexA`).  `List.indexOf`
already returns the length when the element is absent. -/
def effIdx (c : String) : Nat :=
  categoryOrder.indexOf c

/-- Model of `localeCompare` as a three-way comparison on the standard
string order: negative, zero or positive. -/
def strCmp (a b : String) : Int :=
  if a < b then -1 else if b < a then 1 else 0

/-- The source's `getMemberNameForSort`: an absent `memberId` resolves
to the sentinel `무명`; a lookup that fails, or finds a member with an
empty (falsy) name, resolves to `미지정`. -/
def getMemberNameForSort (members : List Member) (memberId : Option Nat) : String :=
  match memberId with
  | none => "무명"
  | some i =>
    match members.find? (fun m => m.id == i) with
    | some m => if m.name = "" then "미지정" else m.name
    | none => "미지정"

/-- The source's `getMemberName`: any failed lookup (absent id, dangling
id, or empty stored name) resolves to `미지정`. -/
def getMemberName (members : List Member) (memberId : Option Nat) : String :=
  match memberId with
  | none => "미지정"
  | some i =>
    match members.find? (fun m => m.id == i) with
    | some m => if m.name = "" then "미지정" else m.name
    | none => "미지정"

/-- The display-feed comparator of `withBalance` in the source: date
ascending, then income before expense, then (income only) reversed
category rank, then (income only) member name descending, then id. -/
def cmpTx (members : List Member) (a b : Transaction) : Int :=
  let dateCompare : Int := (a.date : Int) - (b.date : Int)
  if dateCompare ≠ 0 then dateCompare
  else if a.type ≠ b.type then (if a.type = TxType.income then -1 else 1)
  else if a.type = TxType.income then
    let effectiveIndexA := effIdx a.category
    let effectiveIndexB := effIdx b.category
    if effectiveIndexA ≠ effectiveIndexB then
      (effectiveIndexA : Int) - (effectiveIndexB : Int)
    else
      let nameA := getMemberNameForSort members a.memberId
      let nameB := getMemberNameForSort members b.memberId
      let nameCompare := strCmp nameB nameA
      if nameCompare ≠ 0 then nameCompare
      else (a.id : Int) - (b.id : Int)
  else (a.id : Int) - (b.id : Int)

/-- Sorting relation induced by the comparator. -/
def leTx (members : List Member) (a b : Transaction) : Prop :=
  cmpTx members a b ≤ 0

instance (members : List Member) : DecidableRel (leTx members) :=
  fun a b => inferInstanceAs (Decidable (cmpTx members a b ≤ 0))

/-- Ascending chronological sort of the entries (the `.sort(...)` call
inside `withBalance`). -/
def sortTxs (members : List Member) (txs : List Transaction) : List Transaction :=
  txs.insertionSort (leTx members)

/-- The `.map` step of `withBalance`: walk the sorted list with a
running signed total and attach it to each entry. -/
def attachBalances (acc : Int) : List Transaction → List BTx
  | [] => []
  | t :: ts =>
    let b := acc + signedAmount t
    ⟨t, b⟩ :: attachBalances b ts

/-- The source's `withBalance` value (`transactionsWithBalance`):
sort ascending, attach running balances, then reverse for display. -/
def transactionsWithBalance (members : List Member) (txs : List Transaction) : List BTx :=
  (attachBalances 0 (sortTxs members txs)).reverse

/-! Calendar arithmetic on day numbers.  In the source, `today` is a
`YYYY-MM-DD` string; `yearStartStr` is `today.getFullYear() + '-01-01'`
and `weekStartStr` is the ISO date of `today` minus `today.getDay()`
days (`getDay`: Sunday = 0).  On the day-number encoding these become
`yearStartOf` and `weekStartOf` below; day 0 (0000-01-01, proleptic
Gregorian) is a Saturday, so the weekday of day `n` is `(n + 6) % 7`
with Sunday = 0. -/

/-- Gregorian leap-year test. -/
def isLeap (y : Nat) : Bool :=
  (y % 4 == 0 && y % 100 != 0) || y % 400 == 0

/-- Number of days in year `y`. -/
def daysInYear (y : Nat) : Nat :=
  if isLeap y then 366 else 365

/-- Day number of January 1 of year `y`. -/
def toDaysJan1 : Nat → Nat
  | 0 => 0
  | y + 1 => toDaysJan1 y + daysInYear y

/-- Fuel-driven search for the year containing a day number: starting
from year `y`, consume `rem` remaining days year by year.  The fuel is
always sufficient because every year has at least one day. -/
def yearOfDayAux : Nat → Nat → Nat → Nat
  | 0, y, _ => y
  | fuel + 1, y, rem =>
    if rem < daysInYear y then y else yearOfDayAux fuel (y + 1) (rem - daysInYear y)

/-- Year containing day number `n` (the model of `getFullYear()`). -/
def yearOfDay (n : Nat) : Nat :=
  yearOfDayAux (n + 1) 0 n

/-- Day number of January 1 of the year containing `today`
(the source's `yearStartStr`). -/
def yearStartOf (today : Nat) : Nat :=
  toDaysJan1 (yearOfDay today)

/-- Weekday of a day number, Sunday = 0 (the model of `getDay()`). -/
def dayOfWeek (n : Nat) : Nat :=
  (n + 6) % 7

/-- The source's `weekStartStr`: `today` minus its weekday index. -/
def weekStartOf (today : Nat) : Nat :=
  today - dayOfWeek today

/-- The six recurring income categories of the weekly breakdown
(the source's `gyeongsangbiCategories`). -/
def gyeongsangbiCategories : List String :=
  ["주정헌금", "십일조", "감사헌금", "생일감사", "심방감사", "일천번제"]

/-- Add `a` to the value stored under key `k`, if present (the model of
`obj[k] += a` on a JS object known to contain `k`). -/
def bumpKey (k : String) (a : Int) : List (String × Int) → List (String × Int)
  | [] => []
  | (k₁, v) :: rest =>
    if k₁ = k then (k₁, v + a) :: rest else (k₁, v) :: bumpKey k a rest

/-- Accumulator of the window-aggregation `forEach` loop. -/
structure WindowAcc where
  yearlyIncome : Int
  yearlyExpense : Int
  weeklyIncome : Int
  weeklyExpense : Int
  breakdown : List (String × Int)
  weeklySeongyo : Int
  weeklyGeonchuk : Int
deriving DecidableEq, Repr

/-- Initial accumulator: all totals zero, breakdown initialized to zero
for every recurring category (`Object.fromEntries(... map(cat => [cat, 0]))`). -/
def initWindowAcc : WindowAcc :=
  ⟨0, 0, 0, 0, gyeongsangbiCategories.map (fun c => (c, 0)), 0, 0⟩

/-- One iteration of the source's aggregation loop over `transactions`:
note that both window tests are lower bounds only (`tx.date >= …`). -/
def windowStep (yearStartStr weekStartStr : Nat) (acc : WindowAcc) (tx : Transaction) :
    WindowAcc :=
  let amount := tx.amount
  let acc1 :=
    if yearStartStr ≤ tx.date then
      if tx.type = TxType.income then { acc with yearlyIncome := acc.yearlyIncome + amount }
      else { acc with yearlyExpense := acc.yearlyExpense + amount }
    else acc
  if weekStartStr ≤ tx.date then
    if tx.type = TxType.income then
      let acc2 := { acc1 with weeklyIncome := acc1.weeklyIncome + amount }
      if tx.category ∈ gyeongsangbiCategories then
        { acc2 with breakdown := bumpKey tx.category amount acc2.breakdown }
      else if tx.category = "선교헌금" then
        { acc2 with weeklySeongyo := acc2.weeklySeongyo + amount }
      else if tx.category = "건축헌금" then
        { acc2 with weeklyGeonchuk := acc2.weeklyGeonchuk + amount }
      else acc2
    else { acc1 with weeklyExpense := acc1.weeklyExpense + amount }
  else acc1

/-- The whole window-aggregation computation for a given `today`. -/
def computeWindowTotals (txs : List Transaction) (today : Nat) : WindowAcc :=
  txs.foldl (windowStep (yearStartOf today) (weekStartOf today)) initWindowAcc

/-- The today-split `forEach` loop: accumulate `(previousBalance,
todaysChange)`; dates strictly before `today` go to the first bucket,
dates equal to `today` to the second, later dates to neither. -/
def todaySplit (txs : List Transaction) (today : Nat) : Int × Int :=
  txs.foldl
    (fun pt tx =>
      let amount := signedAmount tx
      if tx.date < today then (pt.1 + amount, pt.2)
      else if tx.date = today then (pt.1, pt.2 + amount)
      else pt)
    (0, 0)

/-- `todaysBalance = previousBalance + todaysChange` in the source. -/
def todaysBalance (txs : List Transaction) (today : Nat) : Int :=
  (todaySplit txs today).1 + (todaySplit txs today).2

/-- The search modal's date-range filter (`filteredTransactions`):
inclusive on both ends. -/
def filteredTransactions (txs : List Transaction) (startDate endDate : Nat) :
    List Transaction :=
  txs.filter (fun tx => startDate ≤ tx.date && tx.date ≤ endDate)

/-- The by-person search (`nameSearchResult`): income entries of the
given person within the range, with the sum of their amounts. -/
def searchByPerson (txs : List Transaction) (pid : Nat) (startDate endDate : Nat) :
    List Transaction × Int :=
  let result := (filteredTransactions txs startDate endDate).filter
    (fun tx => tx.memberId == some pid && tx.type == TxType.income)
  (result, (result.map Transaction.amount).sum)

/-- Application state relevant to roster deletion: the roster and the
entry list live in separate persistent states. -/
structure AppState where
  members : List Member
  transactions : List Transaction
deriving DecidableEq, Repr

/-- The source's `handleDeleteMember`: filter the roster by id; the
transaction state is untouched. -/
def handleDeleteMember (st : AppState) (i : Nat) : AppState :=
  { st with members := st.members.filter (fun m => m.id != i) }

/-- Yearly window sum as the spec describes it, with BOTH bounds:
income entries with date in [January 1 of today's year, today].  Kept
for comparison with the code's computation, which has no upper bound. -/
def specYearlyIncome (txs : List Transaction) (today : Nat) : Int :=
  ((txs.filter (fun tx =>
      yearStartOf today ≤ tx.date ∧ tx.date ≤ today ∧ tx.type = TxType.income)).map
    Transaction.amount).sum

/-- Weekly window sum as the spec describes it, with BOTH bounds:
income entries with date in [week start, today].  Kept for comparison
with the code's computation, which has no upper bound. -/
def specWeeklyIncome (txs : List Transaction) (today : Nat) : Int :=
  ((txs.filter (fun tx =>
      weekStartOf today ≤ tx.date ∧ tx.date ≤ today ∧ tx.type = TxType.income)).map
    Transaction.amount).sum

/-! Helper lemmas. -/

theorem strCmp_neg (a b : String) : strCmp b a = - strCmp a b := by
  unfold strCmp
  rcases lt_trichotomy a b with h | h | h
  · simp [h, lt_asymm h]
  · simp [h, lt_irrefl]
  · simp [h, lt_asymm h]

theorem cmpTx_zero (members : List Member) (a b : Transaction)
    (h : cmpTx members a b = 0) : a.id = b.id := by
  simp only [cmpTx] at h
  split_ifs at h <;> omega

theorem cmpTx_refl (members : List Member) (a : Transaction) :
    cmpTx members a a = 0 := by
  simp [cmpTx, strCmp]

theorem cmpTx_antisymm (members : List Member) (a b : Transaction) :
    cmpTx members b a = - cmpTx members a b := by
  have hty : ∀ s t : TxType, s ≠ TxType.income → t ≠ TxType.income → s = t := by
    intro s t hs ht
    cases s <;> cases t <;> simp_all
  simp only [cmpTx]
  split_ifs <;>
    first
      | omega
      | (exact strCmp_neg _ _)
      | (exact absurd (hty b.type a.type (by assumption) (by assumption)) (by assumption))
      | (exact absurd (hty a.type b.type (by assumption) (by assumption)) (by assumption))
      | (have hs := strCmp_neg (getMemberNameForSort members a.memberId) (getMemberNameForSort members b.memberId); omega)
      | simp_all

theorem attachBalances_length (acc : Int) (l : List Transaction) :
    (attachBalances acc l).length = l.length := by
  induction l generalizing acc with
  | nil => rfl
  | cons t ts ih => simp [attachBalances, ih]

theorem attachBalances_map_tx (acc : Int) (l : List Transaction) :
    (attachBalances acc l).map BTx.tx = l := by
  induction l generalizing acc with
  | nil => rfl
  | cons t ts ih => simp [attachBalances, ih]

theorem todaySplit_foldl (today : Nat) (txs : List Transaction) (p : Int × Int) :
    txs.foldl
        (fun pt tx =>
          let amount := signedAmount tx
          if tx.date < today then (pt.1 + amount, pt.2)
          else if tx.date = today then (pt.1, pt.2 + amount)
          else pt)
        p
      = (p.1 + ((txs.filter (fun tx => tx.date < today)).map signedAmount).sum,
         p.2 + ((txs.filter (fun tx => tx.date = today)).map signedAmount).sum) := by
  induction txs generalizing p with
  | nil => simp
  | cons t ts ih =>
    by_cases h1 : t.date < today
    · have h2 : ¬ t.date = today := by omega
      simp [List.foldl_cons, List.filter_cons, h1, h2, ih]
      omega
    · by_cases h2 : t.date = today
      · simp [List.foldl_cons, List.filter_cons, h1, h2, ih]
        omega
      · simp [List.foldl_cons, List.filter_cons, h1, h2, ih]

theorem attachBalances_get_balance (l : List Transaction) :
    ∀ (acc : Int) (i : Nat) (h : i < (attachBalances acc l).length),
      ((attachBalances acc l).get ⟨i, h⟩).balance
        = acc + ((l.take (i + 1)).map signedAmount).sum := by
  induction l with
  | nil => intro acc i h; simp [attachBalances] at h
  | cons t ts ih =>
    intro acc i h
    cases i with
    | zero => simp [attachBalances]
    | succ n =>
      have h2 : n < (attachBalances (acc + signedAmount t) ts).length := by
        have := h
        simp only [attachBalances, List.length_cons] at this
        omega
      have hstep : ((attachBalances acc (t :: ts)).get ⟨n + 1, h⟩).balance
          = ((attachBalances (acc + signedAmount t) ts).get ⟨n, h2⟩).balance := rfl
      rw [hstep, ih]
      simp [List.take_succ_cons, add_assoc]

theorem attachBalances_get_tx (l : List Transaction) :
    ∀ (acc : Int) (i : Nat) (h : i < (attachBalances acc l).length) (hl : i < l.length),
      ((attachBalances acc l).get ⟨i, h⟩).tx = l.get ⟨i, hl⟩ := by
  induction l with
  | nil => intro acc i h _; simp [attachBalances] at h
  | cons t ts ih =>
    intro acc i h hl
    cases i with
    | zero => rfl
    | succ n =>
      have h2 : n < (attachBalances (acc + signedAmount t) ts).length := by
        have := h
        simp only [attachBalances, List.length_cons] at this
        omega
      exact ih (acc + signedAmount t) n h2 (Nat.lt_of_succ_lt_succ hl)

/-- C5: the today split sums entries strictly before today into
`previousBalance`, entries dated today into `todaysChange`,
`todaysBalance` is their sum, and entries dated after today contribute
to none of the three values. -/
theorem todaySplit_spec (txs : List Transaction) (today : Nat) :
    (todaySplit txs today).1
        = ((txs.filter (fun tx => tx.date < today)).map signedAmount).sum
    ∧ (todaySplit txs today).2
        = ((txs.filter (fun tx => tx.date = today)).map signedAmount).sum
    ∧ todaysBalance txs today = (todaySplit txs today).1 + (todaySplit txs today).2
    ∧ todaySplit (txs.filter (fun tx => tx.date ≤ today)) today = todaySplit txs today := by
  have key : ∀ l : List Transaction, todaySplit l today
      = (((l.filter (fun tx => tx.date < today)).map signedAmount).sum,
         ((l.filter (fun tx => tx.date = today)).map signedAmount).sum) := by
    intro l
    have h := todaySplit_foldl today l (0, 0)
    simpa [todaySplit] using h
  refine ⟨by rw [key], by rw [key], rfl, ?_⟩
  rw [key, key, List.filter_filter, List.filter_filter]
  have e1 : txs.filter (fun a => decide (a.date < today) && decide (a.date ≤ today))
      = txs.filter (fun tx => decide (tx.date < today)) := by
    apply List.filter_congr
    intro tx _
    by_cases h1 : tx.date < today <;> simp [h1] <;> omega
  have e2 : txs.filter (fun a => decide (a.date = today) && decide (a.date ≤ today))
      = txs.filter (fun tx => decide (tx.date = today)) := by
    apply List.filter_congr
    intro tx _
    by_cases h1 : tx.date = today <;> simp [h1]
  rw [e1, e2]

/-- C2: after the chronological ascending sort, the balance attached to
the entry at position `i` is the signed sum of the first `i + 1` sorted
entries, and the balance attached to the chronologically last entry is
the signed sum of the whole input list. -/
theorem withBalance_prefix_sums (members : List Member) (txs : List Transaction) :
    (∀ (i : Nat) (h : i < (attachBalances 0 (sortTxs members txs)).length),
        ((attachBalances 0 (sortTxs members txs)).get ⟨i, h⟩).balance
          = (((sortTxs members txs).take (i + 1)).map signedAmount).sum)
    ∧ (∀ h : 0 < (attachBalances 0 (sortTxs members txs)).length,
        ((attachBalances 0 (sortTxs members txs)).get
            ⟨(attachBalances 0 (sortTxs members txs)).length - 1, by omega⟩).balance
          = (txs.map signedAmount).sum) := by
  have hpre : ∀ (i : Nat) (h : i < (attachBalances 0 (sortTxs members txs)).length),
      ((attachBalances 0 (sortTxs members txs)).get ⟨i, h⟩).balance
        = (((sortTxs members txs).take (i + 1)).map signedAmount).sum := by
    intro i h
    rw [attachBalances_get_balance]
    ring
  refine ⟨hpre, ?_⟩
  intro h
  rw [hpre]
  have hlen : (attachBalances 0 (sortTxs members txs)).length
      = (sortTxs members txs).length := attachBalances_length _ _
  have htake : (sortTxs members txs).take
      ((attachBalances 0 (sortTxs members txs)).length - 1 + 1)
      = sortTxs members txs := by
    apply List.take_of_length_le
    omega
  rw [htake]
  have hperm : (sortTxs members txs).Perm txs := List.perm_insertionSort (leTx members) txs
  exact (hperm.map signedAmount).sum_eq

/-- C3 (amended): along the chronological order, each attached balance
differs from the previous one by exactly the entry's signed amount; an
entry whose amount is zero is a no-op, while any entry with a nonzero
(including negative) amount changes the running balance. -/
theorem runningBalance_step (members : List Member) (txs : List Transaction) (i : Nat)
    (h : i + 1 < (attachBalances 0 (sortTxs members txs)).length) :
    ((attachBalances 0 (sortTxs members txs)).get ⟨i + 1, h⟩).balance
      = ((attachBalances 0 (sortTxs members txs)).get ⟨i, Nat.lt_of_succ_lt h⟩).balance
        + signedAmount ((attachBalances 0 (sortTxs members txs)).get ⟨i + 1, h⟩).tx
    ∧ (((attachBalances 0 (sortTxs members txs)).get ⟨i + 1, h⟩).tx.amount = 0 →
        ((attachBalances 0 (sortTxs members txs)).get ⟨i + 1, h⟩).balance
          = ((attachBalances 0 (sortTxs members txs)).get
              ⟨i, Nat.lt_of_succ_lt h⟩).balance)
    ∧ (((attachBalances 0 (sortTxs members txs)).get ⟨i + 1, h⟩).tx.amount ≠ 0 →
        ((attachBalances 0 (sortTxs members txs)).get ⟨i + 1, h⟩).balance
          ≠ ((attachBalances 0 (sortTxs members txs)).get
              ⟨i, Nat.lt_of_succ_lt h⟩).balance) := by
  have hlen : (attachBalances 0 (sortTxs members txs)).length
      = (sortTxs members txs).length := attachBalances_length _ _
  have hl1 : i + 1 < (sortTxs members txs).length := by omega
  have hstep : ((attachBalances 0 (sortTxs members txs)).get ⟨i + 1, h⟩).balance
      = ((attachBalances 0 (sortTxs members txs)).get ⟨i, Nat.lt_of_succ_lt h⟩).balance
        + signedAmount ((attachBalances 0 (sortTxs members txs)).get ⟨i + 1, h⟩).tx := by
    have htake : (sortTxs members txs).take (i + 1 + 1)
        = (sortTxs members txs).take (i + 1) ++ [(sortTxs members txs).get ⟨i + 1, hl1⟩] := by
      rw [← List.take_concat_get _ _ hl1]
      simp [List.concat_eq_append]
    rw [attachBalances_get_balance, attachBalances_get_balance,
      attachBalances_get_tx _ _ _ _ hl1, htake, List.map_append, List.sum_append]
    simp [add_assoc]
  refine ⟨hstep, ?_, ?_⟩
  · intro hz
    rw [hstep]
    have : signedAmount ((attachBalances 0 (sortTxs members txs)).get ⟨i + 1, h⟩).tx = 0 := by
      unfold signedAmount
      split_ifs <;> omega
    rw [this, add_zero]
  · intro hnz
    rw [hstep]
    have : signedAmount ((attachBalances 0 (sortTxs members txs)).get ⟨i + 1, h⟩).tx ≠ 0 := by
      unfold signedAmount
      split_ifs <;> omega
    omega

/-- C3 (counterexample): with an income entry of amount `-5` present,
the balance attached to the later entry is not what it would be with
the invalid entry absent — a non-positive amount is not a no-op. -/
theorem negativeAmount_not_noop :
    ¬ (∀ bt ∈ transactionsWithBalance []
          [⟨1, TxType.income, 10, "기타", -5, none, none⟩,
           ⟨2, TxType.income, 11, "기타", 100, none, none⟩],
        ∀ bt2 ∈ transactionsWithBalance []
          [⟨2, TxType.income, 11, "기타", 100, none, none⟩],
        bt.tx.id = bt2.tx.id → bt.balance = bt2.balance) := by
  decide

/-- C8: by-person search returns exactly the income entries of the
given person with date in the inclusive range, together with the sum of
their amounts; an inverted range yields no matches and total 0. -/
theorem searchByPerson_spec (txs : List Transaction) (pid startDate endDate : Nat) :
    (∀ tx, tx ∈ (searchByPerson txs pid startDate endDate).1
        ↔ tx ∈ txs ∧ tx.type = TxType.income ∧ tx.memberId = some pid
            ∧ startDate ≤ tx.date ∧ tx.date ≤ endDate)
    ∧ (∀ tx ∈ (searchByPerson txs pid startDate endDate).1, tx.type ≠ TxType.expense)
    ∧ (searchByPerson txs pid startDate endDate).2
        = (((searchByPerson txs pid startDate endDate).1).map Transaction.amount).sum
    ∧ (endDate < startDate →
        (searchByPerson txs pid startDate endDate).1 = []
        ∧ (searchByPerson txs pid startDate endDate).2 = 0) := by
  have hmem : ∀ tx, tx ∈ (searchByPerson txs pid startDate endDate).1
      ↔ tx ∈ txs ∧ tx.type = TxType.income ∧ tx.memberId = some pid
          ∧ startDate ≤ tx.date ∧ tx.date ≤ endDate := by
    intro tx
    simp only [searchByPerson, filteredTransactions, List.mem_filter, Bool.and_eq_true,
      decide_eq_true_eq, beq_iff_eq]
    tauto
  refine ⟨hmem, ?_, rfl, ?_⟩
  · intro tx htx
    have := (hmem tx).mp htx
    intro hexp
    rw [hexp] at this
    exact absurd this.2.1 (by simp)
  · intro hlt
    have hnil : (searchByPerson txs pid startDate endDate).1 = [] := by
      rcases h : (searchByPerson txs pid startDate endDate).1 with _ | ⟨tx, rest⟩
      · rfl
      · have : tx ∈ (searchByPerson txs pid startDate endDate).1 := by
          rw [h]; exact List.mem_cons_self tx rest
        have := (hmem tx).mp this
        omega
    refine ⟨hnil, ?_⟩
    have : (searchByPerson txs pid startDate endDate).2
        = (((searchByPerson txs pid startDate endDate).1).map Transaction.amount).sum := rfl
    rw [this, hnil]
    rfl

/-- C9: deleting a person removes exactly that person from the roster,
leaves the transaction list unchanged, and name resolution for entries
referencing the deleted id yields the sentinel. -/
theorem handleDeleteMember_spec (st : AppState) (i : Nat) :
    (handleDeleteMember st i).transactions = st.transactions
    ∧ (∀ m, m ∈ (handleDeleteMember st i).members ↔ m ∈ st.members ∧ m.id ≠ i)
    ∧ (∀ tx, tx ∈ st.transactions → tx.memberId = some i →
        getMemberName (handleDeleteMember st i).members tx.memberId = "미지정") := by
  refine ⟨rfl, ?_, ?_⟩
  · intro m
    simp [handleDeleteMember, List.mem_filter]
  · intro tx _ hid
    rw [hid]
    have hnone : (handleDeleteMember st i).members.find? (fun m => m.id == i) = none := by
      rw [List.find?_eq_none]
      intro m hm
      have := ((by
        simp [handleDeleteMember, List.mem_filter] :
          ∀ x, x ∈ (handleDeleteMember st i).members ↔ x ∈ st.members ∧ x.id ≠ i) m).mp hm
      simp [this.2]
    simp [getMemberName, hnone]

/-- C10: the display feed is a permutation of the input entry list with
each entry's fields unchanged (only a balance attached), and has the
same length. -/
theorem displayFeed_perm (members : List Member) (txs : List Transaction) :
    ((transactionsWithBalance members txs).map BTx.tx).Perm txs
    ∧ (transactionsWithBalance members txs).length = txs.length := by
  constructor
  · have h1 : (transactionsWithBalance members txs).map BTx.tx
        = (sortTxs members txs).reverse := by
      simp [transactionsWithBalance, List.map_reverse, attachBalances_map_tx]
    rw [h1]
    exact (List.reverse_perm _).trans (List.perm_insertionSort (leTx members) txs)
  · simp [transactionsWithBalance, attachBalances_length, sortTxs,
      List.length_insertionSort]

/-- C7: the display-feed comparator never declares two entries with
distinct ids equal, it is reflexive-consistent (an entry ties only with
itself), and it is antisymmetric; so for identical inputs the sorted
order — and with it the whole display feed — is uniquely determined. -/
theorem comparator_total (members : List Member) :
    (∀ a b : Transaction, cmpTx members a b = 0 → a.id = b.id)
    ∧ (∀ a : Transaction, cmpTx members a a = 0)
    ∧ (∀ a b : Transaction, cmpTx members b a = - cmpTx members a b) := by
  exact ⟨fun a b h => cmpTx_zero members a b h,
    fun a => cmpTx_refl members a,
    fun a b => cmpTx_antisymm members a b⟩

theorem comparator_total_witness :
    (⟨7, TxType.expense, 10, "운영비", 100, none, none⟩ : Transaction).id = 7 :=
  (comparator_total []).1
    ⟨7, TxType.expense, 10, "운영비", 100, none, none⟩
    ⟨7, TxType.expense, 10, "운영비", 100, none, none⟩
    (by decide)

/-- C4 (amended): for same-date same-category income entries the
comparison key is the resolved person name, compared descending via
`strCmp`, falling back to the id; an entry with an absent `memberId`
uses the sentinel `무명`, while an entry whose `memberId` resolves to no
member uses the DIFFERENT sentinel `미지정`. -/
theorem nameTieBreak (members : List Member) (a b : Transaction)
    (hd : a.date = b.date) (ha : a.type = TxType.income) (hb : b.type = TxType.income)
    (hc : a.category = b.category) :
    cmpTx members a b
      = (if strCmp (getMemberNameForSort members b.memberId)
            (getMemberNameForSort members a.memberId) ≠ 0
         then strCmp (getMemberNameForSort members b.memberId)
            (getMemberNameForSort members a.memberId)
         else (a.id : Int) - (b.id : Int))
    ∧ getMemberNameForSort members none = "무명"
    ∧ (∀ i : Nat, members.find? (fun m => m.id == i) = none →
        getMemberNameForSort members (some i) = "미지정") := by
  refine ⟨?_, rfl, ?_⟩
  · have h1 : ¬((a.date : Int) - (b.date : Int) ≠ 0) := by simp [hd]
    have h2 : ¬(a.type ≠ b.type) := by simp [ha, hb]
    have h3 : ¬(effIdx a.category ≠ effIdx b.category) := by simp [hc]
    simp only [cmpTx]
    rw [if_neg h1, if_neg h2, if_pos ha, if_neg h3]
  · intro i hi
    simp [getMemberNameForSort, hi]

theorem nameTieBreak_witness :
    getMemberNameForSort [] none = "무명"
    ∧ getMemberNameForSort [] (some 99) = "미지정" := by
  have h := nameTieBreak []
    ⟨1, TxType.income, 10, "십일조", 100, none, none⟩
    ⟨2, TxType.income, 10, "십일조", 100, some 99, none⟩
    rfl rfl rfl rfl
  exact ⟨h.2.1, h.2.2 99 rfl⟩

/-- C4 (counterexample): the two unresolved-person cases do not share a
single sentinel — an absent `memberId` and a dangling `memberId` yield
different comparison keys. -/
theorem unresolvedSentinelsDiffer :
    ¬ (getMemberNameForSort [] none = getMemberNameForSort [] (some 99)) := by
  decide

theorem windowStep_yearlyIncome (ys ws : Nat) (acc : WindowAcc) (tx : Transaction) :
    (windowStep ys ws acc tx).yearlyIncome
      = acc.yearlyIncome
        + (if ys ≤ tx.date ∧ tx.type = TxType.income then tx.amount else 0) := by
  simp only [windowStep]
  split_ifs <;> simp_all

theorem windowStep_yearlyExpense (ys ws : Nat) (acc : WindowAcc) (tx : Transaction) :
    (windowStep ys ws acc tx).yearlyExpense
      = acc.yearlyExpense
        + (if ys ≤ tx.date ∧ tx.type = TxType.expense then tx.amount else 0) := by
  have hty : ∀ t : TxType, t ≠ TxType.income → t = TxType.expense := by
    intro t ht
    cases t <;> simp_all
  simp only [windowStep]
  split_ifs <;> simp_all [hty]

theorem windowStep_weeklyIncome (ys ws : Nat) (acc : WindowAcc) (tx : Transaction) :
    (windowStep ys ws acc tx).weeklyIncome
      = acc.weeklyIncome
        + (if ws ≤ tx.date ∧ tx.type = TxType.income then tx.amount else 0) := by
  simp only [windowStep]
  split_ifs <;> simp_all

theorem windowStep_weeklyExpense (ys ws : Nat) (acc : WindowAcc) (tx : Transaction) :
    (windowStep ys ws acc tx).weeklyExpense
      = acc.weeklyExpense
        + (if ws ≤ tx.date ∧ tx.type = TxType.expense then tx.amount else 0) := by
  have hty : ∀ t : TxType, t ≠ TxType.income → t = TxType.expense := by
    intro t ht
    cases t <;> simp_all
  simp only [windowStep]
  split_ifs <;> simp_all [hty]

theorem windowStep_breakdown (ys ws : Nat) (acc : WindowAcc) (tx : Transaction) :
    (windowStep ys ws acc tx).breakdown
      = (if ws ≤ tx.date ∧ tx.type = TxType.income ∧ tx.category ∈ gyeongsangbiCategories
         then bumpKey tx.category tx.amount acc.breakdown
         else acc.breakdown) := by
  simp only [windowStep]
  split_ifs <;> simp_all

theorem windowTotals_foldl (ys ws : Nat) (txs : List Transaction) (acc : WindowAcc) :
    (txs.foldl (windowStep ys ws) acc).yearlyIncome
      = acc.yearlyIncome
        + ((txs.filter (fun tx => ys ≤ tx.date ∧ tx.type = TxType.income)).map
            Transaction.amount).sum
    ∧ (txs.foldl (windowStep ys ws) acc).yearlyExpense
      = acc.yearlyExpense
        + ((txs.filter (fun tx => ys ≤ tx.date ∧ tx.type = TxType.expense)).map
            Transaction.amount).sum
    ∧ (txs.foldl (windowStep ys ws) acc).weeklyIncome
      = acc.weeklyIncome
        + ((txs.filter (fun tx => ws ≤ tx.date ∧ tx.type = TxType.income)).map
            Transaction.amount).sum
    ∧ (txs.foldl (windowStep ys ws) acc).weeklyExpense
      = acc.weeklyExpense
        + ((txs.filter (fun tx => ws ≤ tx.date ∧ tx.type = TxType.expense)).map
            Transaction.amount).sum := by
  induction txs generalizing acc with
  | nil => simp
  | cons t ts ih =>
    obtain ⟨ih1, ih2, ih3, ih4⟩ := ih (windowStep ys ws acc t)
    refine ⟨?_, ?_, ?_, ?_⟩
    · rw [List.foldl_cons, ih1, windowStep_yearlyIncome, List.filter_cons]
      by_cases h : ys ≤ t.date ∧ t.type = TxType.income <;> simp [h] <;> omega
    · rw [List.foldl_cons, ih2, windowStep_yearlyExpense, List.filter_cons]
      by_cases h : ys ≤ t.date ∧ t.type = TxType.expense <;> simp [h] <;> omega
    · rw [List.foldl_cons, ih3, windowStep_weeklyIncome, List.filter_cons]
      by_cases h : ws ≤ t.date ∧ t.type = TxType.income <;> simp [h] <;> omega
    · rw [List.foldl_cons, ih4, windowStep_weeklyExpense, List.filter_cons]
      by_cases h : ws ≤ t.date ∧ t.type = TxType.expense <;> simp [h] <;> omega

/-- C1 (amended): the yearly totals sum exactly the entries with date
on or after January 1 of today's year, and the weekly totals sum
exactly the entries with date on or after the week start (the most
recent Sunday on or before today); neither window has an upper bound,
so entries dated strictly after today are also counted. -/
theorem windowTotals_spec (txs : List Transaction) (today : Nat) (h6 : 6 ≤ today) :
    (computeWindowTotals txs today).yearlyIncome
      = ((txs.filter (fun tx => yearStartOf today ≤ tx.date ∧ tx.type = TxType.income)).map
          Transaction.amount).sum
    ∧ (computeWindowTotals txs today).yearlyExpense
      = ((txs.filter (fun tx => yearStartOf today ≤ tx.date ∧ tx.type = TxType.expense)).map
          Transaction.amount).sum
    ∧ (computeWindowTotals txs today).weeklyIncome
      = ((txs.filter (fun tx => weekStartOf today ≤ tx.date ∧ tx.type = TxType.income)).map
          Transaction.amount).sum
    ∧ (computeWindowTotals txs today).weeklyExpense
      = ((txs.filter (fun tx => weekStartOf today ≤ tx.date ∧ tx.type = TxType.expense)).map
          Transaction.amount).sum
    ∧ dayOfWeek (weekStartOf today) = 0
    ∧ weekStartOf today ≤ today
    ∧ (∀ s, dayOfWeek s = 0 → s ≤ today → s ≤ weekStartOf today) := by
  obtain ⟨h1, h2, h3, h4⟩ :=
    windowTotals_foldl (yearStartOf today) (weekStartOf today) txs initWindowAcc
  refine ⟨?_, ?_, ?_, ?_, ?_, ?_, ?_⟩
  · rw [computeWindowTotals, h1]
    simp [initWindowAcc]
  · rw [computeWindowTotals, h2]
    simp [initWindowAcc]
  · rw [computeWindowTotals, h3]
    simp [initWindowAcc]
  · rw [computeWindowTotals, h4]
    simp [initWindowAcc]
  · simp only [dayOfWeek, weekStartOf]
    omega
  · simp only [weekStartOf]
    omega
  · intro s hs hle
    simp only [dayOfWeek] at hs
    simp only [weekStartOf, dayOfWeek]
    omega

/-- C1 (counterexample): with `today` equal to day 406 (a day in year
1) and a single income entry dated one day later, the code counts the
entry in both the yearly and the weekly totals, while the claimed
windows [January 1, today] and [week start, today] exclude it. -/
theorem futureEntry_counted :
    (computeWindowTotals [⟨1, TxType.income, 407, "십일조", 100, some 1, none⟩] 406).yearlyIncome
        ≠ specYearlyIncome [⟨1, TxType.income, 407, "십일조", 100, some 1, none⟩] 406
    ∧ (computeWindowTotals [⟨1, TxType.income, 407, "십일조", 100, some 1, none⟩] 406).weeklyIncome
        ≠ specWeeklyIncome [⟨1, TxType.income, 407, "십일조", 100, some 1, none⟩] 406 := by
  decide

theorem bumpKey_map_fst (k : String) (a : Int) (l : List (String × Int)) :
    (bumpKey k a l).map Prod.fst = l.map Prod.fst := by
  induction l with
  | nil => rfl
  | cons kv rest ih =>
    obtain ⟨k1, v⟩ := kv
    by_cases h : k1 = k <;> simp [bumpKey, h, ih]

theorem bumpKey_nonneg (k : String) (a : Int) (l : List (String × Int))
    (ha : 0 ≤ a) (hl : ∀ kv ∈ l, 0 ≤ kv.2) :
    ∀ kv ∈ bumpKey k a l, 0 ≤ kv.2 := by
  induction l with
  | nil => simp [bumpKey]
  | cons kv0 rest ih =>
    obtain ⟨k1, v⟩ := kv0
    intro kv hkv
    by_cases h : k1 = k
    · simp only [bumpKey, if_pos h] at hkv
      rcases List.mem_cons.mp hkv with h1 | h1
      · subst h1
        have hv : (0 : Int) ≤ v := hl (k1, v) (List.mem_cons_self _ _)
        simp only []
        omega
      · exact hl kv (List.mem_cons_of_mem _ h1)
    · simp only [bumpKey, if_neg h] at hkv
      rcases List.mem_cons.mp hkv with h1 | h1
      · subst h1
        exact hl (k1, v) (List.mem_cons_self _ _)
      · exact ih (fun x hx => hl x (List.mem_cons_of_mem _ hx)) kv h1

theorem lookup_isSome_of_mem_fst {l : List (String × Int)} {c : String}
    (h : c ∈ l.map Prod.fst) : (l.lookup c).isSome := by
  induction l with
  | nil => simp at h
  | cons kv rest ih =>
    obtain ⟨k1, v⟩ := kv
    by_cases hc : c = k1
    · simp [List.lookup, hc]
    · have hres : c ∈ rest.map Prod.fst := by
        simp only [List.map_cons, List.mem_cons] at h
        rcases h with h1 | h1
        · exact absurd h1 hc
        · exact h1
      have hbeq : (c == k1) = false := by simpa using hc
      simp [List.lookup, hbeq, ih hres]

theorem windowTotals_breakdown_inv (ys ws : Nat) (txs : List Transaction)
    (acc : WindowAcc)
    (hpos : ∀ tx ∈ txs, 0 ≤ tx.amount)
    (hfst : acc.breakdown.map Prod.fst = gyeongsangbiCategories)
    (hnn : ∀ kv ∈ acc.breakdown, 0 ≤ kv.2) :
    (txs.foldl (windowStep ys ws) acc).breakdown.map Prod.fst = gyeongsangbiCategories
    ∧ ∀ kv ∈ (txs.foldl (windowStep ys ws) acc).breakdown, 0 ≤ kv.2 := by
  induction txs generalizing acc with
  | nil => exact ⟨hfst, hnn⟩
  | cons t ts ih =>
    have hstep := windowStep_breakdown ys ws acc t
    have hfst2 : (windowStep ys ws acc t).breakdown.map Prod.fst = gyeongsangbiCategories := by
      rw [hstep]
      split_ifs with h
      · rw [bumpKey_map_fst]; exact hfst
      · exact hfst
    have hnn2 : ∀ kv ∈ (windowStep ys ws acc t).breakdown, 0 ≤ kv.2 := by
      rw [hstep]
      split_ifs with h
      · exact bumpKey_nonneg _ _ _ (hpos t (List.mem_cons_self _ _)) hnn
      · exact hnn
    apply ih <;>
      first
        | exact fun tx htx => hpos tx (List.mem_cons_of_mem _ htx)
        | exact hfst2
        | exact hnn2

/-- C6: for every entry list with the data model's nonnegative amounts,
the weekly recurring-category breakdown has exactly the six fixed
category names as keys (in order), six entries, every value is
nonnegative, and looking up any of the six keys succeeds. -/
theorem weeklyBreakdown_complete (txs : List Transaction) (today : Nat)
    (hpos : ∀ tx ∈ txs, 0 ≤ tx.amount) :
    (computeWindowTotals txs today).breakdown.map Prod.fst = gyeongsangbiCategories
    ∧ (computeWindowTotals txs today).breakdown.length = 6
    ∧ (∀ kv ∈ (computeWindowTotals txs today).breakdown, 0 ≤ kv.2)
    ∧ (∀ c ∈ gyeongsangbiCategories,
        ((computeWindowTotals txs today).breakdown.lookup c).isSome) := by
  obtain ⟨hfst, hnn⟩ := windowTotals_breakdown_inv (yearStartOf today) (weekStartOf today)
    txs initWindowAcc hpos (by decide) (by decide)
  have hfst2 : (computeWindowTotals txs today).breakdown.map Prod.fst
      = gyeongsangbiCategories := hfst
  have hnn2 : ∀ kv ∈ (computeWindowTotals txs today).breakdown, 0 ≤ kv.2 := hnn
  refine ⟨hfst2, ?_, hnn2, ?_⟩
  · have hlen := congrArg List.length hfst2
    simpa [gyeongsangbiCategories] using hlen
  · intro c hc
    apply lookup_isSome_of_mem_fst
    rw [hfst2]
    exact hc

theorem weeklyBreakdown_complete_witness :
    (computeWindowTotals [⟨1, TxType.income, 400, "십일조", 100, some 1, none⟩] 406).breakdown.map
        Prod.fst = gyeongsangbiCategories
    ∧ (((computeWindowTotals [⟨1, TxType.income, 400, "십일조", 100, some 1, none⟩]
          406).breakdown.lookup "십일조").isSome) := by
  have h := weeklyBreakdown_complete [⟨1, TxType.income, 400, "십일조", 100, some 1, none⟩] 406
    (by decide)
  exact ⟨h.1, h.2.2.2 "십일조" (by decide)⟩

theorem windowTotals_spec_witness :
    (computeWindowTotals [⟨1, TxType.income, 400, "십일조", 100, some 1, none⟩] 406).yearlyIncome
      = (([⟨1, TxType.income, 400, "십일조", 100, some 1, none⟩].filter
          (fun tx => yearStartOf 406 ≤ tx.date ∧ tx.type = TxType.income)).map
            Transaction.amount).sum
    ∧ dayOfWeek (weekStartOf 406) = 0 := by
  have h := windowTotals_spec [⟨1, TxType.income, 400, "십일조", 100, some 1, none⟩] 406
    (by decide)
  exact ⟨h.1, h.2.2.2.2.1⟩

theorem withBalance_prefix_sums_witness :
    ((attachBalances 0 (sortTxs []
        [⟨1, TxType.income, 10, "기타", 5, none, none⟩,
         ⟨2, TxType.expense, 11, "운영비", 3, none, none⟩])).get ⟨0, by decide⟩).balance
      = (((sortTxs []
          [⟨1, TxType.income, 10, "기타", 5, none, none⟩,
           ⟨2, TxType.expense, 11, "운영비", 3, none, none⟩]).take 1).map signedAmount).sum
    ∧ ((attachBalances 0 (sortTxs []
        [⟨1, TxType.income, 10, "기타", 5, none, none⟩,
         ⟨2, TxType.expense, 11, "운영비", 3, none, none⟩])).get
          ⟨(attachBalances 0 (sortTxs []
              [⟨1, TxType.income, 10, "기타", 5, none, none⟩,
               ⟨2, TxType.expense, 11, "운영비", 3, none, none⟩])).length - 1,
            by decide⟩).balance
      = (([⟨1, TxType.income, 10, "기타", 5, none, none⟩,
           ⟨2, TxType.expense, 11, "운영비", 3, none, none⟩].map signedAmount)).sum := by
  exact ⟨(withBalance_prefix_sums []
      [⟨1, TxType.income, 10, "기타", 5, none, none⟩,
       ⟨2, TxType.expense, 11, "운영비", 3, none, none⟩]).1 0 (by decide),
    (withBalance_prefix_sums []
      [⟨1, TxType.income, 10, "기타", 5, none, none⟩,
       ⟨2, TxType.expense, 11, "운영비", 3, none, none⟩]).2 (by decide)⟩

theorem runningBalance_step_witness :
    ((attachBalances 0 (sortTxs []
        [⟨1, TxType.income, 10, "기타", 5, none, none⟩,
         ⟨2, TxType.expense, 11, "운영비", 3, none, none⟩])).get ⟨1, by decide⟩).balance
      = ((attachBalances 0 (sortTxs []
          [⟨1, TxType.income, 10, "기타", 5, none, none⟩,
           ⟨2, TxType.expense, 11, "운영비", 3, none, none⟩])).get ⟨0, by decide⟩).balance
        + signedAmount ((attachBalances 0 (sortTxs []
            [⟨1, TxType.income, 10, "기타", 5, none, none⟩,
             ⟨2, TxType.expense, 11, "운영비", 3, none, none⟩])).get ⟨1, by decide⟩).tx :=
  (runningBalance_step []
    [⟨1, TxType.income, 10, "기타", 5, none, none⟩,
     ⟨2, TxType.expense, 11, "운영비", 3, none, none⟩] 0 (by decide)).1

theorem searchByPerson_spec_witness :
    (searchByPerson [⟨1, TxType.income, 10, "십일조", 100, some 5, none⟩] 5 20 3).1 = []
    ∧ (searchByPerson [⟨1, TxType.income, 10, "십일조", 100, some 5, none⟩] 5 20 3).2 = 0 :=
  (searchByPerson_spec [⟨1, TxType.income, 10, "십일조", 100, some 5, none⟩] 5 20 3).2.2.2
    (by decide)

theorem handleDeleteMember_spec_witness :
    getMemberName
        (handleDeleteMember
          ⟨[⟨5, "김철수", "집사"⟩],
           [⟨1, TxType.income, 10, "십일조", 100, some 5, none⟩]⟩ 5).members
        (some 5)
      = "미지정" := by
  have h := handleDeleteMember_spec
    ⟨[⟨5, "김철수", "집사"⟩], [⟨1, TxType.income, 10, "십일조", 100, some 5, none⟩]⟩ 5
  exact h.2.2 ⟨1, TxType.income, 10, "십일조", 100, some 5, none⟩ (by decide) rfl
